import Mathlib

/-!
Shallow embedding of `src/backuptool.py`, a content-addressed snapshot
backup tool persisted in three SQLite tables:

  snapshots(id INTEGER PRIMARY KEY AUTOINCREMENT, timestamp TEXT)
  blobs(hash TEXT PRIMARY KEY, content BLOB, size INTEGER)
  files(snapshot_id INTEGER, path TEXT, blob_hash TEXT)

Tables are modelled as lists of rows in insertion order.  The
AUTOINCREMENT sequence is modelled by the `seq` field: SQLite assigns
`seq + 1` to a new snapshot row and never reuses an id, even after the
row is deleted.  The content digest `hashlib.sha256(content).hexdigest()`
is modelled by a parameter `h : Content → D`; the collision-resistance
idealisation of the digest is an injectivity hypothesis on `h` where a
theorem needs it.  Filesystem enumeration (`os.walk` plus binary reads)
is an input `walk : List (String × Content)` of (relative path, bytes)
pairs; restore's filesystem writes are returned as data.
-/

namespace BackupTool

/-- File content: the byte string obtained from `f.read()` in binary mode. -/
abbrev Content := List Nat

/-- The persisted SQLite state of one database file.
`seq` is the AUTOINCREMENT sequence for the `snapshots` table;
`snapshots` holds `(id, timestamp)` rows, `blobs` holds
`(hash, content, size)` rows, `files` holds `(snapshot_id, path, blob_hash)`
rows. -/
structure Store (D : Type) where
  seq : Nat
  snapshots : List (Nat × String)
  blobs : List (D × Content × Nat)
  files : List (Nat × String × D)
  deriving DecidableEq

variable {D : Type} [DecidableEq D]

/-- State of a freshly created database after `_init_db` (lines 21-50):
all three tables empty, AUTOINCREMENT sequence at 0, so the first
snapshot gets id 1. -/
def initialStore (D : Type) : Store D := ⟨0, [], [], []⟩

/-- The blob-insertion step of `BackupTool.snapshot` (lines 76-83):
`SELECT 1 FROM blobs WHERE hash = ?`; insert `(hash, content, size)`
only when absent. -/
def putBlob (h : Content → D) (bs : List (D × Content × Nat)) (c : Content) :
    List (D × Content × Nat) :=
  if bs.any (fun b => b.1 = h c) then bs else bs ++ [(h c, c, c.length)]

/-- Body of the per-file loop of `BackupTool.snapshot` (lines 64-88) for
one successfully read file `pc = (relative path, bytes)`: store the blob
(deduplicating) and insert the `files` row `(sid, path, hash)`. -/
def snapStep (h : Content → D) (sid : Nat) (st : Store D) (pc : String × Content) : Store D :=
  { st with blobs := putBlob h st.blobs pc.2,
            files := st.files ++ [(sid, pc.1, h pc.2)] }

/-- `BackupTool.snapshot` (lines 52-90).  `walk` is the sequence of
(relative path, bytes) pairs produced by `os.walk` over the target plus a
successful binary read; for a nonexistent or non-directory target
`os.walk` enumerates nothing, so `walk = []` — the code performs no
validation of the target.  A new snapshot row is inserted first
(`INSERT INTO snapshots`, `cur.lastrowid = seq + 1`), then each file is
processed, then everything is committed.  Returns the printed snapshot id
together with the committed store. -/
def snapshot (h : Content → D) (st : Store D) (walk : List (String × Content)) (ts : String) :
    Nat × Store D :=
  let sid := st.seq + 1
  let st1 : Store D := { st with seq := sid, snapshots := st.snapshots ++ [(sid, ts)] }
  (sid, walk.foldl (snapStep h sid) st1)

/-- `SELECT content FROM blobs WHERE hash = ?` (line 124). -/
def blobLookup (bs : List (D × Content × Nat)) (d : D) : Option Content :=
  (bs.find? (fun b => b.1 = d)).map (fun b => b.2.1)

/-- Outcome of `BackupTool.restore`: the database handle after the call
(`store`), whether the snapshot row was found, whether
`os.makedirs(output_directory)` ran (line 116-117), the file writes
performed as (relative path, bytes), and the reported
`Error: missing blob {hash} for file {path}` events as (digest, path). -/
structure RestoreResult (D : Type) where
  store : Store D
  found : Bool
  createdOutputDir : Bool
  writes : List (String × Content)
  missing : List (D × String)
  deriving DecidableEq

/-- Body of the restore loop (lines 121-130) for one `files` row
`(path, blob_hash)`: look the blob up in the current database state; on a
hit write the bytes, on a miss report the digest and path and continue. -/
def restoreStep (acc : Store D × List (String × Content) × List (D × String))
    (row : String × D) : Store D × List (String × Content) × List (D × String) :=
  match blobLookup acc.1.blobs row.2 with
  | some c => (acc.1, acc.2.1 ++ [(row.1, c)], acc.2.2)
  | none => (acc.1, acc.2.1, acc.2.2 ++ [(row.2, row.1)])

/-- `BackupTool.restore` (lines 104-131): check the snapshot row exists
(else print `Snapshot {id} not found.` and return before creating
anything), create the output directory if absent, select the snapshot's
`files` rows in insertion order, and process each row with
`restoreStep`.  `outDirExists` tells whether `output_directory` already
existed. -/
def restore (st : Store D) (sid : Nat) (outDirExists : Bool) : RestoreResult D :=
  if st.snapshots.any (fun s => s.1 = sid) then
    let rows := (st.files.filter (fun f => f.1 = sid)).map (fun f => (f.2.1, f.2.2))
    let r := rows.foldl restoreStep (st, [], [])
    ⟨r.1, true, !outDirExists, r.2.1, r.2.2⟩
  else ⟨st, false, false, [], []⟩

/-- Outcome of `BackupTool.prune`: the committed store and the report —
`none` models the `No snapshots to prune.` message of the early return,
`some ids` models `Pruned snapshots: {to_delete}`. -/
structure PruneResult (D : Type) where
  store : Store D
  deleted : Option (List Nat)
  deriving DecidableEq

/-- `BackupTool.prune` (lines 133-153): collect the ids of snapshots with
`id <= t`; if none, print `No snapshots to prune.` and return with no
state change.  Otherwise `DELETE FROM files WHERE snapshot_id <= t`
(keeps exactly rows with `t < snapshot_id`), `DELETE FROM snapshots WHERE
id <= t`, then `DELETE FROM blobs WHERE hash NOT IN (SELECT DISTINCT
blob_hash FROM files)` (keeps exactly blobs referenced by a remaining
`files` row), and commit.  The AUTOINCREMENT sequence is untouched by row
deletion. -/
def prune (st : Store D) (t : Nat) : PruneResult D :=
  let toDelete := (st.snapshots.filter (fun s => s.1 ≤ t)).map (fun s => s.1)
  if toDelete = [] then ⟨st, none⟩
  else
    let files2 := st.files.filter (fun f => t < f.1)
    let snapshots2 := st.snapshots.filter (fun s => t < s.1)
    let blobs2 := st.blobs.filter (fun b => files2.any (fun f => f.2.2 = b.1))
    ⟨⟨st.seq, snapshots2, blobs2, files2⟩, some toDelete⟩

/-- One CLI invocation against the same database file: `snapshot`,
`prune`, or `restore` (the `list` command only reads and prints). -/
inductive Op (D : Type) where
  | snap (walk : List (String × Content)) (ts : String)
  | pruneOp (t : Nat)
  | restoreOp (sid : Nat) (outDirExists : Bool)
  deriving DecidableEq

/-- Effect of one invocation on the persisted store. -/
def applyOp (h : Content → D) (st : Store D) : Op D → Store D
  | Op.snap walk ts => (snapshot h st walk ts).2
  | Op.pruneOp t => (prune st t).store
  | Op.restoreOp sid b => (restore st sid b).store

/-- A sequence of CLI invocations against the same database file. -/
def run (h : Content → D) (st : Store D) (ops : List (Op D)) : Store D :=
  ops.foldl (applyOp h) st

/-- Number of snapshot invocations in a run. -/
def numSnaps : List (Op D) → Nat
  | [] => 0
  | Op.snap _ _ :: ops => numSnaps ops + 1
  | _ :: ops => numSnaps ops

/-- The snapshot ids printed by the snapshot invocations of a run, in
invocation order. -/
def assignedIds (h : Content → D) : Store D → List (Op D) → List Nat
  | _, [] => []
  | st, Op.snap walk ts :: ops =>
      (snapshot h st walk ts).1 :: assignedIds h (applyOp h st (Op.snap walk ts)) ops
  | st, op :: ops => assignedIds h (applyOp h st op) ops

/-- Well-formedness of a blob table: every row's key is the digest of its
content and its size column is the byte length of its content. -/
abbrev GoodBlobs (h : Content → D) (bs : List (D × Content × Nat)) : Prop :=
  ∀ b ∈ bs, b.1 = h b.2.1 ∧ b.2.2 = b.2.1.length

/-- Blob-store well-formedness invariant of a whole store. -/
abbrev WFBlobs (h : Content → D) (st : Store D) : Prop :=
  GoodBlobs h st.blobs

/-- Sequence invariant: every `files` row belongs to an already allocated
snapshot id (AUTOINCREMENT never hands out an id twice, so every row's
`snapshot_id` is at most the current sequence value). -/
abbrev WFSeq (st : Store D) : Prop :=
  ∀ f ∈ st.files, f.1 ≤ st.seq

/-- Reference integrity: every `files` row resolves to a present blob. -/
abbrev RefIntegrity (st : Store D) : Prop :=
  ∀ f ∈ st.files, ∃ b ∈ st.blobs, b.1 = f.2.2

/-- Ownership integrity: every `files` row belongs to an existing
snapshot row. -/
abbrev FilesOwned (st : Store D) : Prop :=
  ∀ f ∈ st.files, ∃ s ∈ st.snapshots, s.1 = f.1

/-- Identity digest used to instantiate the development on concrete
inputs: trivially injective, standing in for the collision-resistant
SHA-256 hex digest. -/
def hId : Content → List Nat := fun c => c

/-- Concrete store with a dangling blob reference: snapshot 1 has a file
whose digest `[9]` is absent from the blob table, and a second file whose
blob is present. -/
def storeMiss : Store (List Nat) :=
  ⟨1, [(1, "t1")], [([2], [2], 1)], [(1, "a.txt", [9]), (1, "b.txt", [2])]⟩

/-- Concrete two-snapshot store with full referential integrity, as left
by two snapshot invocations of a one-file directory whose content
changed in between. -/
def storeTwo : Store (List Nat) :=
  ⟨2, [(1, "t1"), (2, "t2")], [([1], [1], 1), ([2], [2], 1)],
   [(1, "a.txt", [1]), (2, "a.txt", [2])]⟩

/-- Concrete directory enumeration: a text file at the root and a binary
file in a subdirectory, as in the repository's own round-trip test. -/
def walkW : List (String × Content) :=
  [("file1.txt", [72, 101, 108, 108, 111]), ("subdir/file2.bin", [0, 255, 7])]

/-- Concrete run: one snapshot invocation followed by a prune. -/
def opsW : List (Op (List Nat)) :=
  [Op.snap [("a.txt", [1])] "t1", Op.pruneOp 1]

/-! ### Helper lemmas about the blob store -/

theorem putBlob_keys_mono (h : Content → D) (bs : List (D × Content × Nat)) (c : Content)
    (d : D) (hd : d ∈ bs.map (fun b => b.1)) : d ∈ (putBlob h bs c).map (fun b => b.1) := by
  unfold putBlob
  split
  · exact hd
  · simp only [List.map_append, List.mem_append]
    exact Or.inl hd

theorem putBlob_key_mem (h : Content → D) (bs : List (D × Content × Nat)) (c : Content) :
    h c ∈ (putBlob h bs c).map (fun b => b.1) := by
  unfold putBlob
  split
  next hcond =>
    rcases List.any_eq_true.mp hcond with ⟨b, hb, hbeq⟩
    exact List.mem_map.mpr ⟨b, hb, of_decide_eq_true hbeq⟩
  next => simp

theorem putBlob_good (h : Content → D) (bs : List (D × Content × Nat)) (c : Content)
    (hg : GoodBlobs h bs) : GoodBlobs h (putBlob h bs c) := by
  unfold putBlob
  split
  · exact hg
  · intro b hb
    rcases List.mem_append.mp hb with hb1 | hb2
    · exact hg b hb1
    · rcases List.mem_singleton.mp hb2 with rfl
      exact ⟨rfl, rfl⟩

theorem putBlob_of_key_mem (h : Content → D) (bs : List (D × Content × Nat)) (c : Content)
    (hd : h c ∈ bs.map (fun b => b.1)) : putBlob h bs c = bs := by
  unfold putBlob
  rw [if_pos]
  rcases List.mem_map.mp hd with ⟨b, hb, hbe⟩
  exact List.any_eq_true.mpr ⟨b, hb, decide_eq_true hbe⟩

theorem blobLookup_of_good (h : Content → D) (hinj : Function.Injective h)
    (bs : List (D × Content × Nat)) (c : Content) (hg : GoodBlobs h bs)
    (hd : h c ∈ bs.map (fun b => b.1)) : blobLookup bs (h c) = some c := by
  induction bs with
  | nil => simp at hd
  | cons b rest ih =>
    by_cases hb : b.1 = h c
    · have hbc : b.2.1 = c := hinj (((hg b (List.mem_cons_self b rest)).1.symm.trans hb))
      simp [blobLookup, List.find?, decide_eq_true hb, hbc]
    · have hd2 : h c ∈ rest.map (fun b => b.1) := by
        rcases List.mem_map.mp hd with ⟨b2, hb2, hbe⟩
        rcases List.mem_cons.mp hb2 with rfl | hmem
        · exact absurd hbe hb
        · exact List.mem_map.mpr ⟨b2, hmem, hbe⟩
      have hg2 : GoodBlobs h rest := fun x hx => hg x (List.mem_cons_of_mem b hx)
      have := ih hg2 hd2
      simpa [blobLookup, List.find?, decide_eq_false hb] using this

/-! ### Helper lemmas about the snapshot fold -/

theorem foldl_snapStep_seq (h : Content → D) (sid : Nat) :
    ∀ (walk : List (String × Content)) (st : Store D),
      (walk.foldl (snapStep h sid) st).seq = st.seq := by
  intro walk
  induction walk with
  | nil => intro st; rfl
  | cons pc rest ih => intro st; simpa using ih (snapStep h sid st pc)

theorem foldl_snapStep_snapshots (h : Content → D) (sid : Nat) :
    ∀ (walk : List (String × Content)) (st : Store D),
      (walk.foldl (snapStep h sid) st).snapshots = st.snapshots := by
  intro walk
  induction walk with
  | nil => intro st; rfl
  | cons pc rest ih => intro st; simpa using ih (snapStep h sid st pc)

theorem foldl_snapStep_files (h : Content → D) (sid : Nat) :
    ∀ (walk : List (String × Content)) (st : Store D),
      (walk.foldl (snapStep h sid) st).files
        = st.files ++ walk.map (fun pc => (sid, pc.1, h pc.2)) := by
  intro walk
  induction walk with
  | nil => intro st; simp
  | cons pc rest ih =>
    intro st
    rw [List.foldl_cons, ih (snapStep h sid st pc)]
    simp [snapStep, List.append_assoc]

theorem foldl_snapStep_good (h : Content → D) (sid : Nat) :
    ∀ (walk : List (String × Content)) (st : Store D),
      GoodBlobs h st.blobs → GoodBlobs h ((walk.foldl (snapStep h sid) st).blobs) := by
  intro walk
  induction walk with
  | nil => intro st hg; exact hg
  | cons pc rest ih =>
    intro st hg
    exact ih (snapStep h sid st pc) (putBlob_good h st.blobs pc.2 hg)

theorem foldl_snapStep_keys_mono (h : Content → D) (sid : Nat) :
    ∀ (walk : List (String × Content)) (st : Store D) (d : D),
      d ∈ st.blobs.map (fun b => b.1)
      → d ∈ ((walk.foldl (snapStep h sid) st).blobs).map (fun b => b.1) := by
  intro walk
  induction walk with
  | nil => intro st d hd; exact hd
  | cons pc rest ih =>
    intro st d hd
    exact ih (snapStep h sid st pc) d (putBlob_keys_mono h st.blobs pc.2 d hd)

theorem foldl_snapStep_keys_mem (h : Content → D) (sid : Nat) :
    ∀ (walk : List (String × Content)) (st : Store D) (pc : String × Content),
      pc ∈ walk → h pc.2 ∈ ((walk.foldl (snapStep h sid) st).blobs).map (fun b => b.1) := by
  intro walk
  induction walk with
  | nil => intro st pc hpc; simp at hpc
  | cons q rest ih =>
    intro st pc hpc
    rcases List.mem_cons.mp hpc with rfl | hmem
    · exact foldl_snapStep_keys_mono h sid rest (snapStep h sid st pc) (h pc.2)
        (putBlob_key_mem h st.blobs pc.2)
    · exact ih (snapStep h sid st q) pc hmem

theorem foldl_snapStep_blobs_const (h : Content → D) (sid : Nat) :
    ∀ (walk : List (String × Content)) (st : Store D),
      (∀ pc ∈ walk, h pc.2 ∈ st.blobs.map (fun b => b.1))
      → (walk.foldl (snapStep h sid) st).blobs = st.blobs := by
  intro walk
  induction walk with
  | nil => intro st _; rfl
  | cons pc rest ih =>
    intro st hall
    have hput : putBlob h st.blobs pc.2 = st.blobs :=
      putBlob_of_key_mem h st.blobs pc.2 (hall pc (List.mem_cons_self pc rest))
    have hstep : (snapStep h sid st pc).blobs = st.blobs := by simp [snapStep, hput]
    rw [List.foldl_cons, ih (snapStep h sid st pc) (by rw [hstep]; exact fun q hq => hall q (List.mem_cons_of_mem pc hq))]
    exact hstep

/-! ### Helper lemmas about the restore fold -/

theorem foldl_restoreStep_store :
    ∀ (rows : List (String × D)) (acc : Store D × List (String × Content) × List (D × String)),
      (rows.foldl restoreStep acc).1 = acc.1 := by
  intro rows
  induction rows with
  | nil => intro acc; rfl
  | cons r rest ih =>
    intro acc
    rw [List.foldl_cons, ih (restoreStep acc r)]
    unfold restoreStep
    cases blobLookup acc.1.blobs r.2 <;> rfl

theorem foldl_restoreStep_char (st0 : Store D) :
    ∀ (rows : List (String × D)) (ws : List (String × Content)) (ms : List (D × String)),
      rows.foldl restoreStep (st0, ws, ms)
        = (st0,
           ws ++ rows.filterMap (fun r => (blobLookup st0.blobs r.2).map (fun c => (r.1, c))),
           ms ++ (rows.filter (fun r => (blobLookup st0.blobs r.2).isNone)).map
                   (fun r => (r.2, r.1))) := by
  intro rows
  induction rows with
  | nil => intro ws ms; simp
  | cons r rest ih =>
    intro ws ms
    rcases hlk : blobLookup st0.blobs r.2 with _ | c
    · rw [List.foldl_cons]
      have hstep : restoreStep (st0, ws, ms) r = (st0, ws, ms ++ [(r.2, r.1)]) := by
        unfold restoreStep
        rw [hlk]
      rw [hstep, ih ws (ms ++ [(r.2, r.1)])]
      simp [hlk, List.append_assoc]
    · rw [List.foldl_cons]
      have hstep : restoreStep (st0, ws, ms) r = (st0, ws ++ [(r.1, c)], ms) := by
        unfold restoreStep
        rw [hlk]
      rw [hstep, ih (ws ++ [(r.1, c)]) ms]
      simp [hlk, List.append_assoc]

theorem restore_store_eq (st : Store D) (sid : Nat) (b : Bool) :
    (restore st sid b).store = st := by
  unfold restore
  split
  · exact foldl_restoreStep_store _ _
  · rfl

theorem filterMap_lookup_map (h : Content → D) (bs : List (D × Content × Nat)) :
    ∀ (walk : List (String × Content)),
      (∀ pc ∈ walk, blobLookup bs (h pc.2) = some pc.2)
      → (walk.map (fun pc => (pc.1, h pc.2))).filterMap
          (fun r => (blobLookup bs r.2).map (fun c => (r.1, c))) = walk := by
  intro walk
  induction walk with
  | nil => intro _; rfl
  | cons pc rest ih =>
    intro hall
    have hpc := hall pc (List.mem_cons_self pc rest)
    simp only [List.map_cons, List.filterMap_cons, hpc, Option.map_some']
    rw [ih (fun q hq => hall q (List.mem_cons_of_mem pc hq))]

theorem filter_lookup_none_nil (h : Content → D) (bs : List (D × Content × Nat)) :
    ∀ (walk : List (String × Content)),
      (∀ pc ∈ walk, blobLookup bs (h pc.2) = some pc.2)
      → (walk.map (fun pc => (pc.1, h pc.2))).filter
          (fun r => (blobLookup bs r.2).isNone) = [] := by
  intro walk
  induction walk with
  | nil => intro _; rfl
  | cons pc rest ih =>
    intro hall
    have hpc := hall pc (List.mem_cons_self pc rest)
    simp only [List.map_cons, List.filter_cons, hpc, Option.isNone_some]
    exact ih (fun q hq => hall q (List.mem_cons_of_mem pc hq))

/-! ### Helper lemmas about whole operations -/

theorem snapshot_fst (h : Content → D) (st : Store D) (walk : List (String × Content))
    (ts : String) : (snapshot h st walk ts).1 = st.seq + 1 := rfl

theorem snapshot_seq (h : Content → D) (st : Store D) (walk : List (String × Content))
    (ts : String) : (snapshot h st walk ts).2.seq = st.seq + 1 := by
  unfold snapshot
  exact foldl_snapStep_seq h (st.seq + 1) walk _

theorem snapshot_snapshots (h : Content → D) (st : Store D) (walk : List (String × Content))
    (ts : String) : (snapshot h st walk ts).2.snapshots = st.snapshots ++ [(st.seq + 1, ts)] := by
  unfold snapshot
  exact foldl_snapStep_snapshots h (st.seq + 1) walk _

theorem snapshot_files (h : Content → D) (st : Store D) (walk : List (String × Content))
    (ts : String) :
    (snapshot h st walk ts).2.files
      = st.files ++ walk.map (fun pc => (st.seq + 1, pc.1, h pc.2)) := by
  unfold snapshot
  exact foldl_snapStep_files h (st.seq + 1) walk _

theorem snapshot_blobs_good (h : Content → D) (st : Store D) (walk : List (String × Content))
    (ts : String) (hg : GoodBlobs h st.blobs) :
    GoodBlobs h (snapshot h st walk ts).2.blobs := by
  unfold snapshot
  exact foldl_snapStep_good h (st.seq + 1) walk _ hg

theorem snapshot_blobs_keys (h : Content → D) (st : Store D) (walk : List (String × Content))
    (ts : String) (pc : String × Content) (hpc : pc ∈ walk) :
    h pc.2 ∈ ((snapshot h st walk ts).2.blobs).map (fun b => b.1) := by
  unfold snapshot
  exact foldl_snapStep_keys_mem h (st.seq + 1) walk _ pc hpc

theorem prune_store_seq (st : Store D) (t : Nat) : (prune st t).store.seq = st.seq := by
  unfold prune
  by_cases hc : (st.snapshots.filter (fun s => s.1 ≤ t)).map (fun s => s.1) = [] <;>
    simp [hc]

theorem applyOp_seq (h : Content → D) (st : Store D) :
    ∀ op : Op D,
      (applyOp h st op).seq = match op with
        | Op.snap _ _ => st.seq + 1
        | _ => st.seq := by
  intro op
  cases op with
  | snap walk ts => exact snapshot_seq h st walk ts
  | pruneOp t => exact prune_store_seq st t
  | restoreOp sid b => simp [applyOp, restore_store_eq]

theorem prune_of_filter_nil (st : Store D) (t : Nat)
    (he : st.snapshots.filter (fun s => s.1 ≤ t) = []) : prune st t = ⟨st, none⟩ := by
  simp [prune, he]

theorem prune_of_filter_ne (st : Store D) (t : Nat)
    (hne : st.snapshots.filter (fun s => s.1 ≤ t) ≠ []) :
    prune st t
      = ⟨⟨st.seq, st.snapshots.filter (fun s => t < s.1),
          st.blobs.filter
            (fun b => (st.files.filter (fun f => t < f.1)).any (fun f => f.2.2 = b.1)),
          st.files.filter (fun f => t < f.1)⟩,
         some ((st.snapshots.filter (fun s => s.1 ≤ t)).map (fun s => s.1))⟩ := by
  have hmap : ((st.snapshots.filter (fun s => s.1 ≤ t)).map (fun s => s.1)) ≠ [] :=
    fun hm => hne (List.map_eq_nil_iff.mp hm)
  simp [prune, hmap]

/-! ### Claim theorems -/

/-- C4: storing content is idempotent.  Snapshotting the same unchanged
directory a second time adds zero new blobs: the blob table (hence the
blob count) after the second snapshot equals the one before it, and
`putBlob` on identical bytes twice always succeeds without duplicating
storage. -/
theorem claim_dedup_idempotent (h : Content → D) (st : Store D)
    (walk : List (String × Content)) (ts1 ts2 : String) :
    ((snapshot h (snapshot h st walk ts1).2 walk ts2).2).blobs.length
      = ((snapshot h st walk ts1).2).blobs.length
    ∧ ((snapshot h (snapshot h st walk ts1).2 walk ts2).2).blobs
      = ((snapshot h st walk ts1).2).blobs
    ∧ ∀ (bs : List (D × Content × Nat)) (c : Content),
        putBlob h (putBlob h bs c) c = putBlob h bs c := by
  have hkeys : ∀ pc ∈ walk, h pc.2 ∈ ((snapshot h st walk ts1).2).blobs.map (fun b => b.1) :=
    fun pc hpc => snapshot_blobs_keys h st walk ts1 pc hpc
  have hblobs : ((snapshot h (snapshot h st walk ts1).2 walk ts2).2).blobs
      = ((snapshot h st walk ts1).2).blobs := by
    unfold snapshot
    exact foldl_snapStep_blobs_const h _ walk _ hkeys
  refine ⟨by rw [hblobs], hblobs, ?_⟩
  intro bs c
  exact putBlob_of_key_mem h (putBlob h bs c) c (putBlob_key_mem h bs c)

/-- C5 (amended): `BackupTool.snapshot` performs no validation of the
target.  When the target does not exist or is not a directory, `os.walk`
enumerates nothing (an empty walk), and snapshot still inserts and
commits a new, empty snapshot record with the next id — it does not fail
and it does write. -/
theorem claim_snapshot_no_validation (h : Content → D) (st : Store D) (ts : String) :
    (snapshot h st [] ts).2
      = { st with seq := st.seq + 1, snapshots := st.snapshots ++ [(st.seq + 1, ts)] }
    ∧ (snapshot h st [] ts).1 = st.seq + 1 :=
  ⟨rfl, rfl⟩

/-- C5 (counterexample): snapshotting a nonexistent target (for which
`os.walk` yields nothing) on a fresh database does not abort before any
writes: a snapshot row with id 1 is inserted and committed, so the state
changes and no `InvalidTarget` failure exists in the code. -/
theorem claim_snapshot_missing_target_writes :
    ((snapshot hId (initialStore (List Nat)) [] "2026-01-01 00:00:00").2).snapshots
      = [(1, "2026-01-01 00:00:00")]
    ∧ (snapshot hId (initialStore (List Nat)) [] "2026-01-01 00:00:00").2
      ≠ initialStore (List Nat) := by
  constructor
  · rfl
  · decide

/-- C9: restore never mutates the persisted store — whatever the
snapshot id, output directory state, and outcome, the snapshots, blobs
and files tables after the call equal those before it. -/
theorem claim_restore_pure (st : Store D) (sid : Nat) (b : Bool) :
    (restore st sid b).store = st :=
  restore_store_eq st sid b

/-- C7: restoring a snapshot id with no snapshot row reports
`Snapshot {id} not found.` and returns with no side effects: the store
is unchanged, the output directory is not created, and no file is
written. -/
theorem claim_restore_not_found (st : Store D) (sid : Nat) (b : Bool)
    (habs : ∀ s ∈ st.snapshots, s.1 ≠ sid) :
    restore st sid b = ⟨st, false, false, [], []⟩ := by
  have hnc : ¬ (st.snapshots.any (fun s => s.1 = sid) = true) := by
    intro hany
    rcases List.any_eq_true.mp hany with ⟨s, hs, hse⟩
    exact habs s hs (of_decide_eq_true hse)
  unfold restore
  rw [if_neg hnc]

/-- Witness for C7 at a concrete input: the fresh database has no
snapshot 1, and restoring it changes nothing and creates nothing. -/
theorem claim_restore_not_found_witness :
    (∀ s ∈ (initialStore (List Nat)).snapshots, s.1 ≠ 1)
    ∧ restore (initialStore (List Nat)) 1 false
        = ⟨initialStore (List Nat), false, false, [], []⟩ :=
  ⟨by decide, claim_restore_not_found (initialStore (List Nat)) 1 false (by decide)⟩

/-- C1: round-trip.  Restoring the snapshot just produced from a
directory enumeration yields exactly the captured (relative path, bytes)
pairs: the snapshot is found, the writes are the original tree (same
relative paths, byte-identical contents), and no blob is missing.
Hypotheses: the digest is collision-free (injective), the pre-existing
store is well formed, and the enumeration has distinct relative paths
(as `os.walk` guarantees). -/
theorem claim_snapshot_restore_roundtrip (h : Content → D) (hinj : Function.Injective h)
    (st : Store D) (hwb : WFBlobs h st) (hseq : WFSeq st)
    (walk : List (String × Content)) (_hnd : (walk.map Prod.fst).Nodup)
    (ts : String) (b : Bool) :
    (restore (snapshot h st walk ts).2 (snapshot h st walk ts).1 b).found = true
    ∧ (restore (snapshot h st walk ts).2 (snapshot h st walk ts).1 b).writes = walk
    ∧ (restore (snapshot h st walk ts).2 (snapshot h st walk ts).1 b).missing = [] := by
  have hfst : (snapshot h st walk ts).1 = st.seq + 1 := rfl
  rw [hfst]
  set st2 := (snapshot h st walk ts).2 with hst2def
  have hmem : ((st.seq + 1, ts) : Nat × String) ∈ st2.snapshots := by
    rw [hst2def, snapshot_snapshots]
    exact List.mem_append.mpr (Or.inr (List.mem_singleton.mpr rfl))
  have hany : st2.snapshots.any (fun s => s.1 = st.seq + 1) = true :=
    List.any_eq_true.mpr ⟨(st.seq + 1, ts), hmem, decide_eq_true rfl⟩
  have hfilter : st2.files.filter (fun f => f.1 = st.seq + 1)
      = walk.map (fun pc => (st.seq + 1, pc.1, h pc.2)) := by
    rw [hst2def, snapshot_files, List.filter_append]
    have h1 : st.files.filter (fun f => f.1 = st.seq + 1) = [] := by
      rw [List.filter_eq_nil_iff]
      intro f hf
      simp only [decide_eq_true_eq]
      have := hseq f hf
      omega
    have h2 : (walk.map (fun pc => (st.seq + 1, pc.1, h pc.2))).filter
        (fun f => f.1 = st.seq + 1) = walk.map (fun pc => (st.seq + 1, pc.1, h pc.2)) := by
      rw [List.filter_eq_self]
      intro f hf
      rcases List.mem_map.mp hf with ⟨pc, _, rfl⟩
      simp
    rw [h1, h2, List.nil_append]
  have hrows : (st2.files.filter (fun f => f.1 = st.seq + 1)).map (fun f => (f.2.1, f.2.2))
      = walk.map (fun pc => (pc.1, h pc.2)) := by
    rw [hfilter, List.map_map]
    rfl
  have hg2 : GoodBlobs h st2.blobs := by
    rw [hst2def]
    exact snapshot_blobs_good h st walk ts hwb
  have hlook : ∀ pc ∈ walk, blobLookup st2.blobs (h pc.2) = some pc.2 := by
    intro pc hpc
    refine blobLookup_of_good h hinj st2.blobs pc.2 hg2 ?_
    rw [hst2def]
    exact snapshot_blobs_keys h st walk ts pc hpc
  have hw : (walk.map (fun pc => (pc.1, h pc.2))).filterMap
      (fun r => (blobLookup st2.blobs r.2).map (fun c => (r.1, c))) = walk :=
    filterMap_lookup_map h st2.blobs walk hlook
  have hm0 : (walk.map (fun pc => (pc.1, h pc.2))).filter
      (fun r => (blobLookup st2.blobs r.2).isNone) = [] :=
    filter_lookup_none_nil h st2.blobs walk hlook
  have hres : restore st2 (st.seq + 1) b = ⟨st2, true, !b, walk, []⟩ := by
    unfold restore
    rw [if_pos hany]
    simp only [hrows, foldl_restoreStep_char, hw, hm0, List.nil_append, List.map_nil]
  rw [hres]
  exact ⟨rfl, rfl, rfl⟩

/-- Witness for C1 at a concrete input: an injective digest, a fresh
well-formed store, and a two-file tree round-trip byte-identically. -/
theorem claim_snapshot_restore_roundtrip_witness :
    (Function.Injective hId ∧ WFBlobs hId (initialStore (List Nat))
      ∧ WFSeq (initialStore (List Nat)) ∧ (walkW.map Prod.fst).Nodup)
    ∧ ((restore (snapshot hId (initialStore (List Nat)) walkW "t").2
          (snapshot hId (initialStore (List Nat)) walkW "t").1 true).found = true
       ∧ (restore (snapshot hId (initialStore (List Nat)) walkW "t").2
            (snapshot hId (initialStore (List Nat)) walkW "t").1 true).writes = walkW
       ∧ (restore (snapshot hId (initialStore (List Nat)) walkW "t").2
            (snapshot hId (initialStore (List Nat)) walkW "t").1 true).missing = []) :=
  ⟨⟨fun a b hab => hab, by decide, by decide, by decide⟩,
   claim_snapshot_restore_roundtrip hId (fun a b hab => hab) (initialStore (List Nat))
     (by decide) (by decide) walkW (by decide) "t" true⟩

/-- C2: reference integrity is preserved by prune.  If before the call
every file entry resolves to a present blob, then after `prune t` every
surviving file entry still resolves to a present blob — the sweep never
deletes a blob referenced by a surviving entry. -/
theorem claim_prune_ref_integrity (st : Store D) (t : Nat) (hri : RefIntegrity st) :
    RefIntegrity (prune st t).store := by
  by_cases he : st.snapshots.filter (fun s => s.1 ≤ t) = []
  · rw [prune_of_filter_nil st t he]
    exact hri
  · rw [prune_of_filter_ne st t he]
    intro f hf
    have hf0 : f ∈ st.files := List.mem_of_mem_filter hf
    rcases hri f hf0 with ⟨bl, hbl, hble⟩
    refine ⟨bl, ?_, hble⟩
    refine List.mem_filter.mpr ⟨hbl, ?_⟩
    exact List.any_eq_true.mpr ⟨f, hf, decide_eq_true hble.symm⟩

/-- Witness for C2 at a concrete input: a two-snapshot store with full
integrity keeps integrity after pruning snapshot 1. -/
theorem claim_prune_ref_integrity_witness :
    RefIntegrity storeTwo ∧ RefIntegrity (prune storeTwo 1).store :=
  ⟨by decide, claim_prune_ref_integrity storeTwo 1 (by decide)⟩

/-- C3: prune removes exactly the snapshots with id ≤ t and their file
entries, and none with id > t; when no snapshot has id ≤ t it reports
`No snapshots to prune.` and changes no state; re-running prune with the
same threshold is a no-op reporting nothing to prune.  The ownership
hypothesis (every file row belongs to an existing snapshot) is the
foreign-key discipline of the schema. -/
theorem claim_prune_exact (st : Store D) (t : Nat) (hown : FilesOwned st) :
    (prune st t).store.snapshots = st.snapshots.filter (fun s => t < s.1)
    ∧ (prune st t).store.files = st.files.filter (fun f => t < f.1)
    ∧ (st.snapshots.filter (fun s => s.1 ≤ t) ≠ [] →
        (prune st t).deleted
          = some ((st.snapshots.filter (fun s => s.1 ≤ t)).map (fun s => s.1)))
    ∧ (st.snapshots.filter (fun s => s.1 ≤ t) = [] →
        (prune st t).store = st ∧ (prune st t).deleted = none)
    ∧ (prune (prune st t).store t).store = (prune st t).store
    ∧ (prune (prune st t).store t).deleted = none := by
  by_cases he : st.snapshots.filter (fun s => s.1 ≤ t) = []
  · have hall : ∀ s ∈ st.snapshots, t < s.1 := by
      intro s hs
      have := List.filter_eq_nil_iff.mp he s hs
      simp only [decide_eq_true_eq] at this
      omega
    have hsn : st.snapshots.filter (fun s => t < s.1) = st.snapshots :=
      List.filter_eq_self.mpr (fun s hs => decide_eq_true (hall s hs))
    have hfl : ∀ f ∈ st.files, t < f.1 := by
      intro f hf
      rcases hown f hf with ⟨s, hs, hse⟩
      have := hall s hs
      omega
    have hfi : st.files.filter (fun f => t < f.1) = st.files :=
      List.filter_eq_self.mpr (fun f hf => decide_eq_true (hfl f hf))
    rw [prune_of_filter_nil st t he]
    exact ⟨hsn.symm, hfi.symm, fun hne => absurd he hne, fun _ => ⟨rfl, rfl⟩,
      by rw [prune_of_filter_nil st t he], by rw [prune_of_filter_nil st t he]⟩
  · rw [prune_of_filter_ne st t he]
    have he2 : ((st.snapshots.filter (fun s => t < s.1)).filter
        (fun s => s.1 ≤ t) : List (Nat × String)) = [] := by
      rw [List.filter_filter, List.filter_eq_nil_iff]
      intro s _
      simp only [Bool.and_eq_true, decide_eq_true_eq]
      omega
    have hsecond := prune_of_filter_nil
      (⟨st.seq, st.snapshots.filter (fun s => t < s.1),
        st.blobs.filter
          (fun b => (st.files.filter (fun f => t < f.1)).any (fun f => f.2.2 = b.1)),
        st.files.filter (fun f => t < f.1)⟩ : Store D) t he2
    exact ⟨rfl, rfl, fun _ => rfl, fun heq => absurd heq he,
      by rw [hsecond], by rw [hsecond]⟩

/-- Witness for C3 at a concrete input: pruning threshold 1 on the
two-snapshot store removes exactly snapshot 1 and its entry;
re-pruning is a no-op. -/
theorem claim_prune_exact_witness :
    FilesOwned storeTwo
    ∧ ((prune storeTwo 1).store.snapshots = storeTwo.snapshots.filter (fun s => 1 < s.1)
       ∧ (prune storeTwo 1).store.files = storeTwo.files.filter (fun f => 1 < f.1)
       ∧ (storeTwo.snapshots.filter (fun s => s.1 ≤ 1) ≠ [] →
           (prune storeTwo 1).deleted
             = some ((storeTwo.snapshots.filter (fun s => s.1 ≤ 1)).map (fun s => s.1)))
       ∧ (storeTwo.snapshots.filter (fun s => s.1 ≤ 1) = [] →
           (prune storeTwo 1).store = storeTwo ∧ (prune storeTwo 1).deleted = none)
       ∧ (prune (prune storeTwo 1).store 1).store = (prune storeTwo 1).store
       ∧ (prune (prune storeTwo 1).store 1).deleted = none) :=
  ⟨by decide, claim_prune_exact storeTwo 1 (by decide)⟩

/-- C8: during a restore whose snapshot exists, the writes are exactly
the file entries whose blob lookup succeeds (with the stored bytes), and
every entry whose blob is absent is reported as a (digest, path) missing
event with no write for it — the loop continues over all remaining
entries instead of aborting. -/
theorem claim_restore_missing_blob (st : Store D) (sid : Nat) (b : Bool)
    (hfound : ∃ s ∈ st.snapshots, s.1 = sid) :
    (restore st sid b).found = true
    ∧ (restore st sid b).writes
        = ((st.files.filter (fun f => f.1 = sid)).map (fun f => (f.2.1, f.2.2))).filterMap
            (fun r => (blobLookup st.blobs r.2).map (fun c => (r.1, c)))
    ∧ (restore st sid b).missing
        = (((st.files.filter (fun f => f.1 = sid)).map (fun f => (f.2.1, f.2.2))).filter
            (fun r => (blobLookup st.blobs r.2).isNone)).map (fun r => (r.2, r.1)) := by
  rcases hfound with ⟨s, hs, hse⟩
  have hany : st.snapshots.any (fun s => s.1 = sid) = true :=
    List.any_eq_true.mpr ⟨s, hs, decide_eq_true hse⟩
  unfold restore
  rw [if_pos hany]
  refine ⟨rfl, ?_, ?_⟩ <;> simp only [foldl_restoreStep_char, List.nil_append]

/-- Witness for C8 at a concrete input: snapshot 1 of `storeMiss` has a
dangling digest `[9]` for `a.txt` and a good blob for `b.txt`; restore
reports the missing (digest, path), writes nothing for `a.txt`, and
still writes `b.txt`. -/
theorem claim_restore_missing_blob_witness :
    (∃ s ∈ storeMiss.snapshots, s.1 = 1)
    ∧ (restore storeMiss 1 true).writes = [("b.txt", [2])]
    ∧ (restore storeMiss 1 true).missing = [([9], "a.txt")] :=
  ⟨by decide,
   ((claim_restore_missing_blob storeMiss 1 true (by decide)).2.1).trans (by decide),
   ((claim_restore_missing_blob storeMiss 1 true (by decide)).2.2).trans (by decide)⟩

theorem assignedIds_eq (h : Content → D) :
    ∀ (ops : List (Op D)) (st : Store D),
      assignedIds h st ops = List.range' (st.seq + 1) (numSnaps ops) := by
  intro ops
  induction ops with
  | nil => intro st; rfl
  | cons op rest ih =>
    intro st
    cases op with
    | snap walk ts =>
      have hseq : (applyOp h st (Op.snap walk ts)).seq = st.seq + 1 :=
        applyOp_seq h st (Op.snap walk ts)
      simp only [assignedIds, numSnaps]
      rw [ih (applyOp h st (Op.snap walk ts)), hseq, List.range'_succ]
      rfl
    | pruneOp t =>
      have hseq : (applyOp h st (Op.pruneOp t)).seq = st.seq :=
        applyOp_seq h st (Op.pruneOp t)
      simp only [assignedIds, numSnaps]
      rw [ih (applyOp h st (Op.pruneOp t)), hseq]
    | restoreOp sid b =>
      have hseq : (applyOp h st (Op.restoreOp sid b)).seq = st.seq :=
        applyOp_seq h st (Op.restoreOp sid b)
      simp only [assignedIds, numSnaps]
      rw [ih (applyOp h st (Op.restoreOp sid b)), hseq]

/-- C6: starting from a fresh database, the snapshot ids printed by the
snapshot invocations of any run (with prunes and restores interleaved
anywhere) are 1, 2, 3, … in creation order: ids start at 1, increase by
1 per creation call, and are never reused even after the snapshot
holding one has been pruned. -/
theorem claim_ids_sequential (h : Content → D) (ops : List (Op D)) :
    assignedIds h (initialStore D) ops = List.range' 1 (numSnaps ops) :=
  assignedIds_eq h ops (initialStore D)

theorem applyOp_wfblobs (h : Content → D) (st : Store D) (op : Op D)
    (hwf : WFBlobs h st) : WFBlobs h (applyOp h st op) := by
  cases op with
  | snap walk ts => exact snapshot_blobs_good h st walk ts hwf
  | pruneOp t =>
    by_cases he : st.snapshots.filter (fun s => s.1 ≤ t) = []
    · simp only [applyOp]
      rw [prune_of_filter_nil st t he]
      exact hwf
    · simp only [applyOp]
      rw [prune_of_filter_ne st t he]
      intro bl hbl
      exact hwf bl (List.mem_of_mem_filter hbl)
  | restoreOp sid b =>
    simp only [applyOp]
    rw [restore_store_eq]
    exact hwf

/-- C10: every operation preserves blob-store well-formedness: after any
run of snapshot, prune and restore invocations on a store whose blob
rows each have key = digest of content and size = byte length of
content, every blob row still satisfies both equations. -/
theorem claim_run_preserves_wfblobs (h : Content → D) (st : Store D) (ops : List (Op D))
    (hwf : WFBlobs h st) : WFBlobs h (run h st ops) := by
  induction ops generalizing st with
  | nil => exact hwf
  | cons op rest ih => exact ih (applyOp h st op) (applyOp_wfblobs h st op hwf)

/-- Witness for C10 at a concrete input: a fresh store is well formed
and stays well formed across a snapshot followed by a prune. -/
theorem claim_run_preserves_wfblobs_witness :
    WFBlobs hId (initialStore (List Nat))
    ∧ WFBlobs hId (run hId (initialStore (List Nat)) opsW) :=
  ⟨by decide, claim_run_preserves_wfblobs hId (initialStore (List Nat)) opsW (by decide)⟩

end BackupTool
